import Mathlib

/-!
Verification of the build-cache subsystem of the api-console-builder
repository (`CacheBuild` class): cache-key hashing, platform cache-folder
resolution, archive packing and entry-by-entry unpacking.

JavaScript strings are modelled as `List Char` (`JStr`), file contents as
`List Nat` (byte lists), the filesystem as a partial map from absolute
paths to file contents, and the external collaborators (`crypto`'s digest,
`archiver`, `yauzl`) by explicit data / event models described at their
definitions.
-/

namespace ACB

/-- A JavaScript string, modelled as its list of characters. -/
abbrev JStr := List Char

/-- File contents: a list of bytes. -/
abbrev Bytes := List Nat

/-- A JavaScript error, identified by its message. -/
abbrev JsErr := JStr

/-- `path.join(a, b)` for already-normalized, nonempty segments:
concatenation with the `/` separator. -/
def pathJoin (a b : JStr) : JStr := a ++ '/' :: b

/-!
## Attributes and their JSON serialization

Per the `ProjectConfiguration` typedef the `attributes` option is an array
whose elements are strings or string-to-string objects.  `createHash`
consumes it only through `JSON.stringify`, modelled here faithfully
(including string escaping); on these tree-shaped values `JSON.stringify`
is total, so the `try { ... } catch (_) {}` of the source is dead code in
the model.
-/

/-- One element of the `attributes` array: a string or an object with
string values (object key order is insertion order, as in JavaScript). -/
inductive AttrValue
  | str (s : JStr)
  | obj (kvs : List (JStr × JStr))
deriving DecidableEq

/-- Lowercase hexadecimal digit for `n < 16` (as produced by
`JSON.stringify`'s `\u00XX` escapes). -/
def hexDig (n : Nat) : Char :=
  match n with
  | 0 => '0' | 1 => '1' | 2 => '2' | 3 => '3' | 4 => '4'
  | 5 => '5' | 6 => '6' | 7 => '7' | 8 => '8' | 9 => '9'
  | 10 => 'a' | 11 => 'b' | 12 => 'c' | 13 => 'd' | 14 => 'e'
  | _ => 'f'

/-- `JSON.stringify`'s escaping of a single character inside a string
literal: quote and backslash get a backslash escape, the named control
characters get their short escapes, the remaining control characters get
`\u00XX`, and every other character stands for itself. -/
def escChar (c : Char) : JStr :=
  if c = '"' then ['\\', '"']
  else if c = '\\' then ['\\', '\\']
  else if c = '\n' then ['\\', 'n']
  else if c = '\r' then ['\\', 'r']
  else if c = '\t' then ['\\', 't']
  else if c.toNat = 8 then ['\\', 'b']
  else if c.toNat = 12 then ['\\', 'f']
  else if c.toNat < 32 then ['\\', 'u', '0', '0', hexDig (c.toNat / 16), hexDig (c.toNat % 16)]
  else [c]

/-- Escape every character of a string body. -/
def escape : JStr → JStr
  | [] => []
  | c :: s => escChar c ++ escape s

/-- A JSON string literal: escaped body surrounded by double quotes. -/
def quote (s : JStr) : JStr := '"' :: escape s ++ ['"']

/-- `Array.prototype.join(sep)` / fragment joining: empty list gives the
empty string, otherwise the elements separated by `sep`. -/
def joinSep (sep : Char) : List JStr → JStr
  | [] => []
  | [x] => x
  | x :: y :: xs => x ++ sep :: joinSep sep (y :: xs)

/-- One `"key":"value"` member of a JSON object. -/
def pairStr (kv : JStr × JStr) : JStr := quote kv.1 ++ ':' :: quote kv.2

/-- `JSON.stringify` of a single attributes element. -/
def stringifyVal : AttrValue → JStr
  | .str s => quote s
  | .obj kvs => '{' :: (joinSep ',' (kvs.map pairStr) ++ ['}'])

/-- `JSON.stringify` of the whole attributes array. -/
def stringifyAttrs (l : List AttrValue) : JStr :=
  '[' :: (joinSep ',' (l.map stringifyVal) ++ [']'])

/-!
## Configuration

The builder options record.  Only `tagName`, `themeFile`, `indexFile`,
`appTitle` and `attributes` are read by `createHash`; `noCache` guards the
cache operations; the remaining fields stand for the many other (untracked)
builder options such as `destination`, `api` or `verbose`.
An absent option is `none`; JavaScript truthiness makes the empty string
behave like an absent value in the `if (opts.field)` guards.
-/

/-- The builder options consumed by `CacheBuild`. -/
structure Config where
  tagName : Option JStr := none
  themeFile : Option JStr := none
  indexFile : Option JStr := none
  appTitle : Option JStr := none
  attributes : Option (List AttrValue) := none
  noCache : Bool := false
  destination : Option JStr := none
  api : Option JStr := none
  verbose : Bool := false
deriving DecidableEq

/-- JavaScript truthiness of an optional string option: `undefined` and
the empty string are falsy, every other string is truthy (returned
unchanged). -/
def truthy : Option JStr → Option JStr
  | none => none
  | some v => if v = [] then none else some v

/-- The conditional `parts.push(pre + value)` of `createHash`: one
fragment when the (truthiness-filtered) value is present, none otherwise. -/
def optFrag (pre : JStr) : Option JStr → List JStr
  | none => []
  | some v => [pre ++ v]

/-- The ordered fragment list built by `CacheBuild.createHash`
(lines 74-98 of the source): `tn=`, `tf=`, `if=`, `at=` fragments for the
truthy scalar options and an `a=` fragment holding the JSON serialization
of `attributes` when that array is present (an array is always truthy). -/
def createHashParts (o : Config) : List JStr :=
  optFrag ("tn=".data) (truthy o.tagName) ++
  optFrag ("tf=".data) (truthy o.themeFile) ++
  optFrag ("if=".data) (truthy o.indexFile) ++
  optFrag ("at=".data) (truthy o.appTitle) ++
  optFrag ("a=".data) (o.attributes.map stringifyAttrs)

/-- The byte sequence fed to the sha256 hash: `parts.join('|')`. -/
def keyMaterial (o : Config) : JStr := joinSep '|' (createHashParts o)

/-- `CacheBuild.createHash`: the digest of the joined fragment list.  The
`crypto` sha256-hex primitive is external; it is modelled as an abstract
function `digest` applied to the key material. -/
def createHash (digest : JStr → JStr) (o : Config) : JStr := digest (keyMaterial o)

/-!
## Cache folder resolution (`CacheBuild.locateAppDir`, lines 46-63)
-/

/-- The environment variables read by `locateAppDir`; `none` models an
unset variable. -/
structure Env where
  APPDATA : Option JStr := none
  HOME : Option JStr := none
deriving DecidableEq

/-- `path.join(maybeUndefined, seg)` for a nonempty `seg`: Node throws a
`TypeError` when the first argument is `undefined`, drops an empty first
segment, and otherwise joins with `/`. -/
def jsJoin (a : Option JStr) (seg : JStr) : Except JsErr JStr :=
  match a with
  | none => .error ("TypeError: Path must be a string. Received undefined".data)
  | some x => if x = [] then .ok seg else .ok (x ++ '/' :: seg)

/-- The per-platform default branches of `locateAppDir` (taken when the
`APPDATA` variable is unset or empty): `<HOME>/Library/Preferences` on
darwin, `<HOME>/.config` on linux, `/var/local` elsewhere.  On darwin and
linux the `path.join` call throws when `HOME` is unset. -/
def locateFallback (env : Env) (platform : JStr) : Except JsErr JStr :=
  if platform = "darwin".data then jsJoin env.HOME ("Library/Preferences".data)
  else if platform = "linux".data then jsJoin env.HOME (".config".data)
  else .ok ("/var/local".data)

/-- `CacheBuild.locateAppDir`: pick the base directory (`APPDATA` when set
and nonempty, else the platform default) and append
`api-console/cache/builds`. -/
def locateAppDir (env : Env) (platform : JStr) : Except JsErr JStr :=
  (match env.APPDATA with
   | some a => if a = [] then locateFallback env platform else .ok a
   | none => locateFallback env platform).map
    (fun dir => pathJoin dir ("api-console/cache/builds".data))

/-!
## The `CacheBuild` instance state
-/

/-- The fields set on a `CacheBuild` instance by its constructor.  `hash`
and `cacheFolder` stay `undefined` (`none`) when `noCache` is set. -/
structure CacheBuild where
  opts : Config
  hash : Option JStr
  cacheFolder : Option JStr

/-- The `CacheBuild` constructor (lines 29-37): when caching is enabled it
computes the hash and the cache folder (the latter can throw, see
`locateAppDir`); when `noCache` is set it leaves both fields undefined. -/
def CacheBuild.make (digest : JStr → JStr) (env : Env) (platform : JStr) (opts : Config) :
    Except JsErr CacheBuild :=
  if opts.noCache then .ok ⟨opts, none, none⟩
  else
    match locateAppDir env platform with
    | .error e => .error e
    | .ok dir => .ok ⟨opts, some (createHash digest opts), some dir⟩

/-- Template-literal interpolation `${x}` of a possibly-undefined string:
`undefined` prints as the string `undefined`. -/
def templ : Option JStr → JStr
  | some s => s
  | none => "undefined".data

/-- The filesystem: a partial map from absolute paths to file contents
(directories are implicit). -/
abbrev Fs := JStr → Option Bytes

/-- `CacheBuild.hasCache` (lines 104-110): `false` immediately when
`noCache` is set; otherwise tests existence of
`<cacheFolder>/<hash>.zip`. -/
def CacheBuild.hasCache (fs : Fs) (cb : CacheBuild) : Except JsErr Bool :=
  if cb.opts.noCache then .ok false
  else (jsJoin cb.cacheFolder (templ cb.hash ++ ".zip".data)).map (fun loc => (fs loc).isSome)

/-!
## Archive unpacking (`_processZip`, `_processZipEntry`, `_copyZipEntry`)

The `yauzl` collaborator is modelled by its documented contract for
`open(source, { lazyEntries: true })`: the open callback receives either an
error or a zip file handle; afterwards exactly one `entry` event is
delivered per `readEntry()` call, an `end` event fires when `readEntry()`
finds no more entries, and (since `autoClose` defaults to true) the `close`
event fires only after that final `readEntry()`.  An archive is therefore a
list of entries in order; `readErr` models a failure of
`openReadStream` for that entry.
-/

/-- One archive entry as delivered by `yauzl`. -/
structure Entry where
  fileName : JStr
  content : Bytes
  readErr : Option JsErr
deriving DecidableEq

/-- Stream events of one extraction run, used to state the
one-entry-in-flight discipline: `reqEntry` is a `zip.readEntry()` call,
`openStreams i` marks entry `i`'s read stream opening together with the
creation of its destination write stream, `closeStreams i` the close of
that write stream (which resolves `_copyZipEntry`). -/
inductive Ev
  | reqEntry
  | openStreams (i : Nat)
  | closeStreams (i : Nat)
deriving DecidableEq

/-- Settlement state of a JavaScript promise. -/
inductive Outcome
  | resolved
  | rejected (e : JsErr)
  | pending
deriving DecidableEq

/-- The directory-marker test `/\/$/.test(entry.fileName)`. -/
def isDirMarker (s : JStr) : Bool := s.getLast? = some '/'

/-- Writing a file (the piped write stream of `_copyZipEntry`). -/
def writeFile (fs : Fs) (p : JStr) (c : Bytes) : Fs :=
  fun q => if q = p then some c else fs q

/-- The entry loop of `_processZip`/`_processZipEntry` after the initial
`readEntry()`: each delivered entry is either a directory marker (skipped,
next entry requested at once), a failing entry (`openReadStream` yields an
error, `_processZipEntry` rejects and `readEntry` is never called again, so
the remaining entries are never delivered), or a regular file (parent
directory ensured — a no-op in the file-map model — contents streamed to
`path.join(destination, fileName)`, and the next entry requested only after
the write stream closes).  Returns the final filesystem, the emitted stream
events, and the error of the failing entry if one was hit. -/
def runEntries (dest : JStr) : Fs → Nat → List Entry → Fs × List Ev × Option JsErr
  | fs, _, [] => (fs, [], none)
  | fs, i, e :: rest =>
    if isDirMarker e.fileName then
      let r := runEntries dest fs (i + 1) rest
      (r.1, Ev.reqEntry :: r.2.1, r.2.2)
    else
      match e.readErr with
      | some err => (fs, [], some err)
      | none =>
        let r := runEntries dest (writeFile fs (pathJoin dest e.fileName) e.content) (i + 1) rest
        (r.1, Ev.openStreams i :: Ev.closeStreams i :: Ev.reqEntry :: r.2.1, r.2.2)

/-- The result of `yauzl.open`: an open error or the entry list. -/
inductive ZipOpen
  | failure (e : JsErr)
  | entries (l : List Entry)

/-- `CacheBuild._processZip` (lines 130-157).  An open error rejects at
once.  Otherwise the entries are consumed one at a time (initial
`readEntry()` then `runEntries`).  When every entry was read, the final
`readEntry()` triggers `end`, `autoClose` closes the file, the `close`
handler awaits the (all fulfilled) per-entry promises and resolves.  When a
per-entry extraction failed, its promise was rejected (after a
`logger.warn`), but `readEntry` is no longer called, so the `close` event
never fires and the promise returned by `_processZip` never settles: the
result is `pending`, with every file written before the failure still in
place. -/
def processZip (zip : ZipOpen) (destination : JStr) (fs : Fs) : Fs × List Ev × Outcome :=
  match zip with
  | .failure e => (fs, [], .rejected e)
  | .entries l =>
    let r := runEntries destination fs 0 l
    (r.1, Ev.reqEntry :: r.2.1,
      match r.2.2 with
      | none => Outcome.resolved
      | some _ => Outcome.pending)

/-- `CacheBuild.restore` (lines 117-121): joins
`<cacheFolder>/<hash>.zip` (which throws a `TypeError`, i.e. rejects the
async method, when `cacheFolder` is `undefined`) and unpacks that archive
into the build directory.  `zipOf` maps a path to what `yauzl.open` yields
for it. -/
def CacheBuild.restore (zipOf : JStr → ZipOpen) (fs : Fs) (cb : CacheBuild) (build : JStr) :
    Fs × List Ev × Outcome :=
  match jsJoin cb.cacheFolder (templ cb.hash ++ ".zip".data) with
  | .error e => (fs, [], .rejected e)
  | .ok source => processZip (zipOf source) build fs

/-!
## Archive packing (`cacheBuild`, `_createPackage`)

The `archiver` collaborator is modelled on two independent axes used by the
claims: the entries it produces for `archive.file` / `archive.directory`
calls (for the round-trip law), and the `warning` / `error` events it can
emit (for the failure-class handling).
-/

/-- A directory tree: the contents of the `sources` build directory. -/
inductive FsTree
  | file (content : Bytes)
  | dir (children : List (JStr × FsTree))

mutual

/-- Entries contributed by one child: `archive.file(p, { name })` adds the
single file under `name`; `archive.directory(p, name)` adds a marker entry
`name/` and, recursively, every descendant under its `/`-joined relative
path. -/
def packEntry : JStr → FsTree → List Entry
  | name, .file c => [⟨name, c, none⟩]
  | name, .dir children => ⟨name ++ ['/'], [], none⟩ :: packChildren name children

/-- Entries of a directory's children, each under `base/childName`. -/
def packChildren : JStr → List (JStr × FsTree) → List Entry
  | _, [] => []
  | base, (n, t) :: rest => packEntry (base ++ '/' :: n) t ++ packChildren base rest

end

/-- The enumeration loop of `_createPackage` (lines 251-265): each
immediate child of `sources` that is a file goes in under its own name via
`archive.file`, each child directory goes in recursively via
`archive.directory`. -/
def createPackageEntries (children : List (JStr × FsTree)) : List Entry :=
  children.flatMap fun p =>
    match p.2 with
    | .file c => [⟨p.1, c, none⟩]
    | .dir sub => packEntry p.1 (.dir sub)

/-- An event emitted by the `archiver` primitive during packing: a warning
carrying an error code, or a fatal error. -/
inductive ArchiveEvent
  | warning (code : JStr) (msg : JStr)
  | err (msg : JStr)
deriving DecidableEq

/-- A logger call. -/
inductive LogEntry
  | debug (msg : JStr)
  | warn (msg : JStr)
  | error (msg : JStr)
deriving DecidableEq

/-- The `warning` and `error` handlers of `_createPackage` (lines
237-248): an `ENOENT` warning is logged at warning level and does not
settle the promise; any other warning and any error is logged at error
level and rejects. -/
def handleArchiveEvent : ArchiveEvent → LogEntry × Option JsErr
  | .warning code msg => if code = "ENOENT".data then (.warn msg, none) else (.error msg, some msg)
  | .err msg => (.error msg, some msg)

/-- The settlement behaviour of the `_createPackage` promise against the
stream of archiver events: the first rejecting event settles the promise
with its error (later handlers still run and log, but cannot re-settle a
settled promise); if no event rejects, the output stream's `close` event
resolves. -/
def createPackageRun : List ArchiveEvent → List LogEntry × Outcome
  | [] => ([], .resolved)
  | e :: rest =>
    let h := handleArchiveEvent e
    let r := createPackageRun rest
    (h.1 :: r.1,
      match h.2 with
      | some m => Outcome.rejected m
      | none => r.2)

/-- `CacheBuild.cacheBuild` (lines 206-214): a guarded no-op when
`noCache` is set, otherwise it packs the sources, with the promise settling
per `createPackageRun`. -/
def CacheBuild.cacheBuild (events : List ArchiveEvent) (cb : CacheBuild) :
    List LogEntry × Outcome :=
  if cb.opts.noCache then ([], .resolved)
  else createPackageRun events

/-- The benign archiver-event class: warnings with the `ENOENT` code. -/
def isBenign : ArchiveEvent → Bool
  | .warning code _ => code = "ENOENT".data
  | .err _ => false

/-- The payload carried by an archiver event. -/
def eventMsg : ArchiveEvent → JStr
  | .warning _ m => m
  | .err m => m

/-- Scans an event trace with a flag saying whether some entry's streams
are currently open; the scan fails (returns false) as soon as a second
entry's streams would open while one is already open (or a close appears
with nothing open). -/
def nestedFrom : Bool → List Ev → Bool
  | _, [] => true
  | b, Ev.reqEntry :: r => nestedFrom b r
  | false, Ev.openStreams _ :: r => nestedFrom true r
  | true, Ev.openStreams _ :: _ => false
  | true, Ev.closeStreams _ :: r => nestedFrom false r
  | false, Ev.closeStreams _ :: _ => false

/-- At every step of the trace at most one entry's streams are open. -/
def atMostOneOpen (evs : List Ev) : Bool := nestedFrom false evs

/-!
## Decoding / parsing helpers used by the separation proofs

These are not part of the source program: they are verification-side
inverses used to prove that the fragment encoding and the JSON
serialization are injective.
-/

/-- Inverse of the short escapes of `escChar`. -/
def unescShort (x : Char) : Char :=
  if x = '"' then '"'
  else if x = '\\' then '\\'
  else if x = 'n' then '\n'
  else if x = 'r' then '\r'
  else if x = 't' then '\t'
  else if x = 'b' then Char.ofNat 8
  else if x = 'f' then Char.ofNat 12
  else x

/-- Inverse of `hexDig`. -/
def unhex (h : Char) : Nat :=
  if h = '0' then 0 else if h = '1' then 1 else if h = '2' then 2 else if h = '3' then 3
  else if h = '4' then 4 else if h = '5' then 5 else if h = '6' then 6 else if h = '7' then 7
  else if h = '8' then 8 else if h = '9' then 9 else if h = 'a' then 10 else if h = 'b' then 11
  else if h = 'c' then 12 else if h = 'd' then 13 else if h = 'e' then 14 else 15

/-- Decodes the leading character escape of an escaped string body;
left inverse of prepending `escChar c`. -/
def decodeEsc : JStr → Option (Char × JStr)
  | [] => none
  | c :: r =>
    if c = '\\' then
      match r with
      | [] => none
      | x :: r' =>
        if x = 'u' then
          match r' with
          | _ :: _ :: h1 :: h2 :: r'' => some (Char.ofNat (16 * unhex h1 + unhex h2), r'')
          | _ => none
        else some (unescShort x, r')
    else some (c, r)

/-- Strips an expected literal fragment tag from the front of a string. -/
def stripPre : JStr → JStr → Option JStr
  | [], s => some s
  | _ :: _, [] => none
  | p :: ps, c :: cs => if p = c then stripPre ps cs else none

/-- Takes the head fragment off a fragment list when it carries the given
tag; otherwise leaves the list unchanged. -/
def peel (pre : JStr) : List JStr → Option JStr × List JStr
  | [] => (none, [])
  | p :: rest =>
    match stripPre pre p with
    | some v => (some v, rest)
    | none => (none, p :: rest)

/-- Recovers the five tracked values from a fragment list by peeling the
tags in their fixed order. -/
def recoverFields (l : List JStr) :
    Option JStr × Option JStr × Option JStr × Option JStr × Option JStr :=
  let r1 := peel ("tn=".data) l
  let r2 := peel ("tf=".data) r1.2
  let r3 := peel ("if=".data) r2.2
  let r4 := peel ("at=".data) r3.2
  let r5 := peel ("a=".data) r4.2
  (r1.1, r2.1, r3.1, r4.1, r5.1)

/-- No fragment of a configuration's key material contains the `|`
separator (the hypothesis under which the fragment encoding is
injective). -/
abbrev PipeFree (c : Config) : Prop := ∀ p ∈ createHashParts c, '|' ∉ p

/-!
## C1: cache-key determinism / untracked-field noninterference
-/

/-- C1: two configurations that agree on every tracked field (`tagName`,
`themeFile`, `indexFile`, `appTitle`, `attributes`) get the same cache key
from `createHash`, whatever their untracked fields (`noCache`,
`destination`, `api`, `verbose`) hold — for every digest function, i.e. in
particular for sha256-hex. -/
theorem createHash_tracked_noninterference (digest : JStr → JStr) (c1 c2 : Config)
    (h1 : c1.tagName = c2.tagName) (h2 : c1.themeFile = c2.themeFile)
    (h3 : c1.indexFile = c2.indexFile) (h4 : c1.appTitle = c2.appTitle)
    (h5 : c1.attributes = c2.attributes) :
    createHash digest c1 = createHash digest c2 := by
  unfold createHash keyMaterial createHashParts
  rw [h1, h2, h3, h4, h5]

/-- Witness for C1: two concrete configurations differing in `noCache`,
`destination` and `verbose` only. -/
theorem createHash_tracked_noninterference_witness :
    createHash id { tagName := some ['v'], destination := some ['d'], verbose := false }
      = createHash id { tagName := some ['v'], noCache := true, verbose := true } :=
  createHash_tracked_noninterference id _ _ rfl rfl rfl rfl rfl

/-!
## C10: falsy tracked values contribute no fragment
-/

/-- C10: a falsy tracked scalar value (the empty string) contributes no
fragment to the key material, so setting `tagName`, `themeFile`,
`indexFile` or `appTitle` to the empty string yields the same cache key as
leaving the field absent. -/
theorem createHash_falsy_as_absent (digest : JStr → JStr) (c : Config) :
    createHash digest { c with tagName := some [] }
        = createHash digest { c with tagName := none } ∧
    createHash digest { c with themeFile := some [] }
        = createHash digest { c with themeFile := none } ∧
    createHash digest { c with indexFile := some [] }
        = createHash digest { c with indexFile := none } ∧
    createHash digest { c with appTitle := some [] }
        = createHash digest { c with appTitle := none } :=
  ⟨rfl, rfl, rfl, rfl⟩

/-!
## C7: cache-root resolution
-/

/-- C7 counterexample: on a linux platform with neither `APPDATA` nor
`HOME` set, `locateAppDir` does not return a path — the inner `path.join`
throws a `TypeError` — so the function is not total as claimed. -/
theorem locateAppDir_cex :
    locateAppDir { APPDATA := none, HOME := none } ("linux".data)
      = .error ("TypeError: Path must be a string. Received undefined".data) := rfl

/-- C7 amended: `locateAppDir` follows the claimed resolution order —
`APPDATA` when set and nonempty, else `<HOME>/Library/Preferences` on
darwin, `<HOME>/.config` on linux, else `/var/local`, with
`api-console/cache/builds` appended — but it is not total: it throws
exactly when `APPDATA` is unset or empty, the platform is darwin or linux,
and `HOME` is unset. -/
theorem locateAppDir_amended (env : Env) (platform : JStr) :
    ((∃ e, locateAppDir env platform = .error e) ↔
      ((env.APPDATA = none ∨ env.APPDATA = some []) ∧
       (platform = "darwin".data ∨ platform = "linux".data) ∧ env.HOME = none)) ∧
    (∀ a, env.APPDATA = some a → a ≠ [] →
      locateAppDir env platform = .ok (pathJoin a ("api-console/cache/builds".data))) ∧
    ((env.APPDATA = none ∨ env.APPDATA = some []) → platform = "darwin".data →
      ∀ h, env.HOME = some h → h ≠ [] →
      locateAppDir env platform =
        .ok (pathJoin (h ++ '/' :: "Library/Preferences".data)
          ("api-console/cache/builds".data))) ∧
    ((env.APPDATA = none ∨ env.APPDATA = some []) → platform = "linux".data →
      ∀ h, env.HOME = some h → h ≠ [] →
      locateAppDir env platform =
        .ok (pathJoin (h ++ '/' :: ".config".data) ("api-console/cache/builds".data))) ∧
    ((env.APPDATA = none ∨ env.APPDATA = some []) →
      platform ≠ "darwin".data → platform ≠ "linux".data →
      locateAppDir env platform =
        .ok (pathJoin ("/var/local".data) ("api-console/cache/builds".data))) := by
  have hdl : ("linux".data : JStr) ≠ "darwin".data := by decide
  refine ⟨⟨?_, ?_⟩, ?_, ?_, ?_, ?_⟩
  · rintro ⟨e, he⟩
    rcases hA : env.APPDATA with _ | a
    · rcases hH : env.HOME with _ | h
      · by_cases hd : platform = "darwin".data
        · exact ⟨Or.inl rfl, Or.inl hd, rfl⟩
        by_cases hl : platform = "linux".data
        · exact ⟨Or.inl rfl, Or.inr hl, rfl⟩
        simp [locateAppDir, locateFallback, jsJoin, hA, hd, hl, Except.map] at he
      · by_cases hd : platform = "darwin".data <;>
          by_cases hl : platform = "linux".data <;>
          by_cases hh : h = [] <;>
          simp [locateAppDir, locateFallback, jsJoin, hA, hH, hd, hl, hh, Except.map] at he
    · by_cases ha : a = []
      · subst ha
        rcases hH : env.HOME with _ | h
        · by_cases hd : platform = "darwin".data
          · exact ⟨Or.inr rfl, Or.inl hd, rfl⟩
          by_cases hl : platform = "linux".data
          · exact ⟨Or.inr rfl, Or.inr hl, rfl⟩
          simp [locateAppDir, locateFallback, jsJoin, hA, hd, hl, Except.map] at he
        · by_cases hd : platform = "darwin".data <;>
            by_cases hl : platform = "linux".data <;>
            by_cases hh : h = [] <;>
            simp [locateAppDir, locateFallback, jsJoin, hA, hH, hd, hl, hh, Except.map] at he
      · simp [locateAppDir, hA, ha, Except.map] at he
  · rintro ⟨hfal, hplat, hhome⟩
    refine ⟨"TypeError: Path must be a string. Received undefined".data, ?_⟩
    rcases hplat with hp | hp <;> rcases hfal with hf | hf <;>
      simp [locateAppDir, locateFallback, jsJoin, hf, hhome, hp, hdl, Except.map]
  · intro a ha hne
    simp [locateAppDir, ha, hne, Except.map, pathJoin]
  · intro hfal hplat h hh hne
    rcases hfal with hf | hf <;>
      simp [locateAppDir, locateFallback, jsJoin, hf, hplat, hh, hne, Except.map, pathJoin]
  · intro hfal hplat h hh hne
    rcases hfal with hf | hf <;>
      simp [locateAppDir, locateFallback, jsJoin, hf, hplat, hh, hne, hdl, Except.map, pathJoin]
  · intro hfal hd hl
    rcases hfal with hf | hf <;>
      simp [locateAppDir, locateFallback, jsJoin, hf, hd, hl, Except.map, pathJoin]

/-- Witness for C7 amended: a set, nonempty `APPDATA` wins on any
platform. -/
theorem locateAppDir_amended_witness :
    locateAppDir { APPDATA := some ['x'], HOME := none } ("linux".data)
      = .ok (pathJoin ['x'] ("api-console/cache/builds".data)) :=
  (locateAppDir_amended { APPDATA := some ['x'], HOME := none } ("linux".data)).2.1
    ['x'] rfl (by decide)

/-!
## C9 / C4: the `noCache` guards and the existence check
-/

/-- C9: with `noCache` set the constructor computes neither the hash nor
the cache folder, and a later `restore` call rejects with the `path.join`
TypeError without touching the filesystem or the archive; `hasCache` and
`cacheBuild`, by contrast, are explicitly guarded and return their
disabled-mode results. -/
theorem restore_noCache_fails (digest : JStr → JStr) (env : Env) (platform : JStr)
    (opts : Config) (zipOf : JStr → ZipOpen) (fs : Fs) (build : JStr)
    (events : List ArchiveEvent) (h : opts.noCache = true) :
    CacheBuild.make digest env platform opts = .ok ⟨opts, none, none⟩ ∧
    CacheBuild.restore zipOf fs ⟨opts, none, none⟩ build
      = (fs, [], .rejected ("TypeError: Path must be a string. Received undefined".data)) ∧
    CacheBuild.hasCache fs ⟨opts, none, none⟩ = .ok false ∧
    CacheBuild.cacheBuild events ⟨opts, none, none⟩ = ([], .resolved) := by
  refine ⟨?_, rfl, ?_, ?_⟩
  · simp [CacheBuild.make, h]
  · simp [CacheBuild.hasCache, h]
  · simp [CacheBuild.cacheBuild, h]

/-- Witness for C9 at a concrete disabled configuration. -/
theorem restore_noCache_fails_witness :
    CacheBuild.restore (fun _ => ZipOpen.entries []) (fun _ => none)
        ⟨{ noCache := true }, none, none⟩ []
      = ((fun _ => none : Fs), [],
         .rejected ("TypeError: Path must be a string. Received undefined".data)) :=
  (restore_noCache_fails id {} ("linux".data) { noCache := true }
    (fun _ => ZipOpen.entries []) (fun _ => none) [] [] rfl).2.1

/-- A successfully resolved cache folder is never the empty path. -/
theorem locateAppDir_ok_ne_nil (env : Env) (platform : JStr) (dir : JStr)
    (h : locateAppDir env platform = .ok dir) : dir ≠ [] := by
  intro hnil
  subst hnil
  unfold locateAppDir at h
  rcases hm : (match env.APPDATA with
    | some a => if a = [] then locateFallback env platform else Except.ok a
    | none => locateFallback env platform) with e | b
  · rw [hm] at h
    simp [Except.map] at h
  · rw [hm] at h
    simp [Except.map, pathJoin] at h

/-- C4: for every constructor-produced store, `hasCache` returns false
whenever `noCache` is set — for every filesystem — and otherwise returns
true exactly when a file exists at `<cache-root>/<cache-key>.zip`, the key
being the digest of the key material. -/
theorem hasCache_spec (digest : JStr → JStr) (env : Env) (platform : JStr)
    (opts : Config) (fs : Fs) (cb : CacheBuild)
    (hmk : CacheBuild.make digest env platform opts = .ok cb) :
    (opts.noCache = true → cb.hasCache fs = .ok false) ∧
    (∀ dir, opts.noCache = false → locateAppDir env platform = .ok dir →
      cb.hasCache fs
        = .ok (fs (pathJoin dir (createHash digest opts ++ ".zip".data))).isSome) := by
  constructor
  · intro hnc
    simp [CacheBuild.make, hnc] at hmk
    simp [CacheBuild.hasCache, ← hmk, hnc]
  · intro dir hnc hdir
    simp [CacheBuild.make, hnc, hdir] at hmk
    have hne : dir ≠ [] := locateAppDir_ok_ne_nil env platform dir hdir
    simp [CacheBuild.hasCache, ← hmk, hnc, jsJoin, templ, hne, Except.map, pathJoin]

/-- Witness for C4: `APPDATA`-resolved root, empty filesystem, default
options — the cache file is absent, so `hasCache` answers false. -/
theorem hasCache_spec_witness :
    CacheBuild.hasCache (fun _ => none)
        ⟨{}, some (createHash id {}), some (pathJoin ['x'] ("api-console/cache/builds".data))⟩
      = .ok false := by
  have h := (hasCache_spec id { APPDATA := some ['x'] } ("w".data) {} (fun _ => none)
      ⟨{}, some (createHash id {}), some (pathJoin ['x'] ("api-console/cache/builds".data))⟩
      rfl).2 (pathJoin ['x'] ("api-console/cache/builds".data)) rfl rfl
  simpa using h

/-!
## C8: packing failure classes
-/

/-- A benign event is logged at warning level and does not settle. -/
theorem handle_benign (e : ArchiveEvent) (h : isBenign e = true) :
    handleArchiveEvent e = (.warn (eventMsg e), none) := by
  cases e with
  | warning code m =>
    have : code = "ENOENT".data := by simpa [isBenign] using h
    simp [handleArchiveEvent, eventMsg, this]
  | err m => simp [isBenign] at h

/-- A non-benign event is logged at error level and rejects. -/
theorem handle_malign (e : ArchiveEvent) (h : isBenign e = false) :
    handleArchiveEvent e = (.error (eventMsg e), some (eventMsg e)) := by
  cases e with
  | warning code m =>
    have : ¬code = "ENOENT".data := by simpa [isBenign] using h
    simp [handleArchiveEvent, eventMsg, this]
  | err m => rfl

/-- C8: during packing, a run of archiver events that are all benign
(`ENOENT` warnings) leaves the operation resolved with each of them logged
as a warning, whereas the first non-benign warning or error rejects the
whole pack operation with that event's error (its message logged at error
level). -/
theorem createPackage_warning_classes (events : List ArchiveEvent) :
    ((∀ e ∈ events, isBenign e = true) →
      (createPackageRun events).2 = .resolved ∧
      (createPackageRun events).1 = events.map (fun e => LogEntry.warn (eventMsg e))) ∧
    (∀ pre e post, events = pre ++ e :: post → (∀ x ∈ pre, isBenign x = true) →
      isBenign e = false →
      (createPackageRun events).2 = .rejected (eventMsg e) ∧
      LogEntry.error (eventMsg e) ∈ (createPackageRun events).1) := by
  constructor
  · induction events with
    | nil => intro _; exact ⟨rfl, rfl⟩
    | cons a rest ih =>
      intro hall
      have ha := hall a (List.mem_cons_self a rest)
      obtain ⟨h1, h2⟩ := ih (fun x hx => hall x (List.mem_cons_of_mem _ hx))
      constructor
      · simp [createPackageRun, handle_benign a ha, h1]
      · simp [createPackageRun, handle_benign a ha, h2]
  · intro pre e post heq hpre hmal
    subst heq
    revert hpre
    induction pre with
    | nil =>
      intro _
      constructor
      · simp [createPackageRun, handle_malign e hmal]
      · simp [createPackageRun, handle_malign e hmal]
    | cons x pre' ih =>
      intro hpre
      have hx := hpre x (List.mem_cons_self x pre')
      obtain ⟨o1, o2⟩ := ih (fun y hy => hpre y (List.mem_cons_of_mem _ hy))
      constructor
      · simpa [createPackageRun, handle_benign x hx] using o1
      · simp only [List.cons_append, createPackageRun, handle_benign x hx]
        exact List.mem_cons_of_mem _ o2

/-- Witness for C8: one benign warning followed by a fatal error rejects
with the error's message while logging it at error level. -/
theorem createPackage_warning_classes_witness :
    (createPackageRun [ArchiveEvent.warning ("ENOENT".data) ['w'], ArchiveEvent.err ['b']]).2
      = .rejected ['b'] ∧
    LogEntry.error ['b'] ∈
      (createPackageRun
        [ArchiveEvent.warning ("ENOENT".data) ['w'], ArchiveEvent.err ['b']]).1 :=
  (createPackage_warning_classes _).2 [ArchiveEvent.warning ("ENOENT".data) ['w']]
    (ArchiveEvent.err ['b']) [] rfl (by decide) rfl

/-!
## C5: one entry in flight during extraction
-/

/-- The entry loop opens and closes one entry's streams at a time. -/
theorem runEntries_nested (dest : JStr) (entries : List Entry) :
    ∀ fs i, nestedFrom false (runEntries dest fs i entries).2.1 = true := by
  induction entries with
  | nil => intro fs i; rfl
  | cons e rest ih =>
    intro fs i
    by_cases hd : isDirMarker e.fileName
    · simp [runEntries, hd, nestedFrom, ih]
    · cases hre : e.readErr with
      | some err => simp [runEntries, hd, hre, nestedFrom]
      | none => simp [runEntries, hd, hre, nestedFrom, ih]

/-- C5: in every extraction run, the trace of stream events is strictly
sequential — a new entry's read/write streams open only after the previous
entry's write stream has closed, so at no reachable step is more than one
entry's stream pair open. -/
theorem extraction_single_entry_in_flight (zip : ZipOpen) (dest : JStr) (fs : Fs) :
    atMostOneOpen (processZip zip dest fs).2.1 = true := by
  cases zip with
  | failure e => rfl
  | entries l =>
    simp [processZip, atMostOneOpen, nestedFrom, runEntries_nested dest l fs 0]

/-!
## C6: per-entry failure during restore
-/

/-- C6: evaluation of `_processZip` at an archive whose second entry fails
to open: the first entry's file is restored and kept (no rollback), but the
overall promise is left pending — the per-entry rejection stops the
`readEntry` chain, so the `close` handler that would propagate the error to
the aggregate result never runs. -/
theorem processZip_entry_failure_pending :
    (processZip (ZipOpen.entries
        [⟨"ok.txt".data, [1, 2], none⟩, ⟨"bad.txt".data, [], some ("EBADF".data)⟩])
        ("build".data) (fun _ => none)).2.2 = Outcome.pending ∧
    (processZip (ZipOpen.entries
        [⟨"ok.txt".data, [1, 2], none⟩, ⟨"bad.txt".data, [], some ("EBADF".data)⟩])
        ("build".data) (fun _ => none)).1
      (pathJoin ("build".data) ("ok.txt".data)) = some [1, 2] :=
  ⟨rfl, rfl⟩

/-!
## C3: pack / unpack round trip
-/

/-- C3: packing a source tree holding `a.txt` and `sub/b.txt` and
unpacking the resulting archive into an empty destination reproduces
exactly those two files, at the same relative paths, with byte-identical
contents, and the restore resolves. -/
theorem pack_unpack_roundtrip (ca cb : Bytes) (dest : JStr) :
    (processZip (ZipOpen.entries (createPackageEntries
        [("a.txt".data, FsTree.file ca), ("sub".data, FsTree.dir [("b.txt".data, FsTree.file cb)])]))
        dest (fun _ => none)).2.2 = Outcome.resolved ∧
    ∀ p, (processZip (ZipOpen.entries (createPackageEntries
        [("a.txt".data, FsTree.file ca), ("sub".data, FsTree.dir [("b.txt".data, FsTree.file cb)])]))
        dest (fun _ => none)).1 p
      = if p = pathJoin dest ("a.txt".data) then some ca
        else if p = pathJoin dest ("sub/b.txt".data) then some cb
        else none := by
  constructor
  · rfl
  · intro p
    have hk : pathJoin dest ("a.txt".data) ≠ pathJoin dest ("sub/b.txt".data) := by
      simp [pathJoin]
    show (writeFile (writeFile (fun _ => none) (pathJoin dest ("a.txt".data)) ca)
        (pathJoin dest ("sub/b.txt".data)) cb) p = _
    by_cases h1 : p = pathJoin dest ("a.txt".data)
    · subst h1
      simp [writeFile, hk]
    · by_cases h3 : p = pathJoin dest ("sub/b.txt".data)
      · subst h3
        simp [writeFile, h1]
      · simp [writeFile, h1, h3]

/-!
## C2: separation of the fragment encoding

The development below proves that the `name=value` fragment encoding of
`createHash` is injective on tracked values as long as no fragment contains
the `|` separator — and exhibits the collision that occurs when one does.
-/

theorem tn_data : ("tn=".data : JStr) = ['t', 'n', '='] := rfl

theorem tf_data : ("tf=".data : JStr) = ['t', 'f', '='] := rfl

theorem if_data : ("if=".data : JStr) = ['i', 'f', '='] := rfl

theorem at_data : ("at=".data : JStr) = ['a', 't', '='] := rfl

theorem a_data : ("a=".data : JStr) = ['a', '='] := rfl

theorem strip_tn_self (v : JStr) : stripPre ['t', 'n', '='] ('t' :: 'n' :: '=' :: v) = some v := by
  simp [stripPre]

theorem strip_tf_self (v : JStr) : stripPre ['t', 'f', '='] ('t' :: 'f' :: '=' :: v) = some v := by
  simp [stripPre]

theorem strip_if_self (v : JStr) : stripPre ['i', 'f', '='] ('i' :: 'f' :: '=' :: v) = some v := by
  simp [stripPre]

theorem strip_at_self (v : JStr) : stripPre ['a', 't', '='] ('a' :: 't' :: '=' :: v) = some v := by
  simp [stripPre]

theorem strip_a_self (v : JStr) : stripPre ['a', '='] ('a' :: '=' :: v) = some v := by
  simp [stripPre]

theorem strip_tn_tf (v : JStr) : stripPre ['t', 'n', '='] ('t' :: 'f' :: '=' :: v) = none := by
  simp [stripPre]

theorem strip_tn_if (v : JStr) : stripPre ['t', 'n', '='] ('i' :: 'f' :: '=' :: v) = none := by
  simp [stripPre]

theorem strip_tn_at (v : JStr) : stripPre ['t', 'n', '='] ('a' :: 't' :: '=' :: v) = none := by
  simp [stripPre]

theorem strip_tn_a (v : JStr) : stripPre ['t', 'n', '='] ('a' :: '=' :: v) = none := by
  simp [stripPre]

theorem strip_tf_if (v : JStr) : stripPre ['t', 'f', '='] ('i' :: 'f' :: '=' :: v) = none := by
  simp [stripPre]

theorem strip_tf_at (v : JStr) : stripPre ['t', 'f', '='] ('a' :: 't' :: '=' :: v) = none := by
  simp [stripPre]

theorem strip_tf_a (v : JStr) : stripPre ['t', 'f', '='] ('a' :: '=' :: v) = none := by
  simp [stripPre]

theorem strip_if_at (v : JStr) : stripPre ['i', 'f', '='] ('a' :: 't' :: '=' :: v) = none := by
  simp [stripPre]

theorem strip_if_a (v : JStr) : stripPre ['i', 'f', '='] ('a' :: '=' :: v) = none := by
  simp [stripPre]

theorem strip_at_a (v : JStr) : stripPre ['a', 't', '='] ('a' :: '=' :: v) = none := by
  simp [stripPre]

/-- Peeling the five tags in order recovers the five optional values the
fragment list was built from. -/
theorem recover_parts (a b c d e : Option JStr) :
    recoverFields (optFrag ("tn=".data) a ++ optFrag ("tf=".data) b ++
        optFrag ("if=".data) c ++ optFrag ("at=".data) d ++ optFrag ("a=".data) e)
      = (a, b, c, d, e) := by
  rcases a with _ | av <;> rcases b with _ | bv <;> rcases c with _ | cv <;>
    rcases d with _ | dv <;> rcases e with _ | ev <;>
    simp [recoverFields, peel, optFrag, tn_data, tf_data, if_data, at_data, a_data,
      strip_tn_self, strip_tf_self, strip_if_self, strip_at_self, strip_a_self,
      strip_tn_tf, strip_tn_if, strip_tn_at, strip_tn_a,
      strip_tf_if, strip_tf_at, strip_tf_a,
      strip_if_at, strip_if_a, strip_at_a]

/-- `recoverFields` recovers the tracked values of any configuration from
its fragment list. -/
theorem recover_correct (c : Config) :
    recoverFields (createHashParts c)
      = (truthy c.tagName, truthy c.themeFile, truthy c.indexFile, truthy c.appTitle,
         c.attributes.map stringifyAttrs) :=
  recover_parts (truthy c.tagName) (truthy c.themeFile) (truthy c.indexFile)
    (truthy c.appTitle) (c.attributes.map stringifyAttrs)

/-- A fragment comes from a present value and carries its tag. -/
theorem mem_optFrag {pre : JStr} {x : Option JStr} {p : JStr} (h : p ∈ optFrag pre x) :
    ∃ v, x = some v ∧ p = pre ++ v := by
  cases x with
  | none => simp [optFrag] at h
  | some v =>
    simp only [optFrag, List.mem_singleton] at h
    exact ⟨v, rfl, h⟩

/-- Every fragment of the key material is nonempty (it starts with its
tag). -/
theorem mem_createHashParts_ne_nil (c : Config) (p : JStr) (hp : p ∈ createHashParts c) :
    p ≠ [] := by
  simp only [createHashParts, List.mem_append] at hp
  rcases hp with ((((h | h) | h) | h) | h) <;>
    · obtain ⟨v, _, hpv⟩ := mem_optFrag h
      subst hpv
      simp [tn_data, tf_data, if_data, at_data, a_data]

/-- Cancelling a `|`-free block in front of the first separator. -/
theorem pipe_append_inj : ∀ (p1 p2 t1 t2 : JStr), '|' ∉ p1 → '|' ∉ p2 →
    p1 ++ '|' :: t1 = p2 ++ '|' :: t2 → p1 = p2 ∧ t1 = t2 := by
  intro p1
  induction p1 with
  | nil =>
    intro p2 t1 t2 _ hp2 h
    cases p2 with
    | nil => simpa using h
    | cons c p2' =>
      simp only [List.nil_append, List.cons_append, List.cons.injEq] at h
      exfalso
      apply hp2
      rw [h.1]
      exact List.mem_cons_self c p2'
  | cons c1 p1' ih =>
    intro p2 t1 t2 hp1 hp2 h
    cases p2 with
    | nil =>
      simp only [List.nil_append, List.cons_append, List.cons.injEq] at h
      exfalso
      apply hp1
      rw [← h.1]
      exact List.mem_cons_self c1 p1'
    | cons c2 p2' =>
      simp only [List.cons_append, List.cons.injEq] at h
      obtain ⟨hc, ht⟩ := h
      have hp1' : '|' ∉ p1' := fun hm => hp1 (List.mem_cons_of_mem _ hm)
      have hp2' : '|' ∉ p2' := fun hm => hp2 (List.mem_cons_of_mem _ hm)
      obtain ⟨he, ht2⟩ := ih p2' t1 t2 hp1' hp2' ht
      exact ⟨by rw [hc, he], ht2⟩

/-- Joining with `|` is injective on lists of nonempty `|`-free
fragments. -/
theorem joinPipe_inj : ∀ (l1 l2 : List JStr),
    (∀ p ∈ l1, p ≠ [] ∧ '|' ∉ p) → (∀ p ∈ l2, p ≠ [] ∧ '|' ∉ p) →
    joinSep '|' l1 = joinSep '|' l2 → l1 = l2 := by
  intro l1
  induction l1 with
  | nil =>
    intro l2 _ h2 h
    cases l2 with
    | nil => rfl
    | cons b l2' =>
      obtain ⟨hbne, _⟩ := h2 b (List.mem_cons_self b l2')
      cases l2' with
      | nil =>
        simp only [joinSep] at h
        exact absurd h.symm hbne
      | cons f l2'' =>
        simp only [joinSep] at h
        exact absurd h.symm (by simp)
  | cons a l1' ih =>
    intro l2 h1 h2 h
    cases l2 with
    | nil =>
      obtain ⟨hane, _⟩ := h1 a (List.mem_cons_self a l1')
      cases l1' with
      | nil =>
        simp only [joinSep] at h
        exact absurd h hane
      | cons g l1'' =>
        simp only [joinSep] at h
        exact absurd h (by simp)
    | cons b l2' =>
      have ha := h1 a (List.mem_cons_self a l1')
      have hb := h2 b (List.mem_cons_self b l2')
      cases l1' with
      | nil =>
        cases l2' with
        | nil =>
          simp only [joinSep] at h
          rw [h]
        | cons f l2'' =>
          simp only [joinSep] at h
          exfalso
          apply ha.2
          rw [h]
          exact List.mem_append_right _ (List.mem_cons_self _ _)
      | cons g l1'' =>
        cases l2' with
        | nil =>
          simp only [joinSep] at h
          exfalso
          apply hb.2
          rw [← h]
          exact List.mem_append_right _ (List.mem_cons_self _ _)
        | cons f l2'' =>
          simp only [joinSep] at h
          obtain ⟨hab, hj⟩ := pipe_append_inj a b _ _ ha.2 hb.2 h
          have h1' : ∀ p ∈ g :: l1'', p ≠ [] ∧ '|' ∉ p :=
            fun p hp => h1 p (List.mem_cons_of_mem _ hp)
          have h2' : ∀ p ∈ f :: l2'', p ≠ [] ∧ '|' ∉ p :=
            fun p hp => h2 p (List.mem_cons_of_mem _ hp)
          have hl := ih (f :: l2'') h1' h2' hj
          rw [hab, hl]

theorem unhex_hexDig (k : Nat) (h : k < 16) : unhex (hexDig k) = k := by
  interval_cases k <;> rfl

/-- `decodeEsc` inverts `escChar` at the front of any continuation. -/
theorem decodeEsc_escChar (c : Char) (r : JStr) :
    decodeEsc (escChar c ++ r) = some (c, r) := by
  by_cases h1 : c = '"'
  · subst h1
    simp [escChar, decodeEsc, unescShort]
  by_cases h2 : c = '\\'
  · subst h2
    simp [escChar, decodeEsc, unescShort]
  by_cases h3 : c = '\n'
  · subst h3
    simp [escChar, decodeEsc, unescShort]
  by_cases h4 : c = '\r'
  · subst h4
    simp [escChar, decodeEsc, unescShort]
  by_cases h5 : c = '\t'
  · subst h5
    simp [escChar, decodeEsc, unescShort]
  by_cases h6 : c.toNat = 8
  · have hc : Char.ofNat 8 = c := by
      rw [← h6]
      exact Char.ofNat_toNat c
    simp [escChar, h1, h2, h3, h4, h5, h6, decodeEsc, unescShort]
    exact hc
  by_cases h7 : c.toNat = 12
  · have hc : Char.ofNat 12 = c := by
      rw [← h7]
      exact Char.ofNat_toNat c
    simp [escChar, h1, h2, h3, h4, h5, h6, h7, decodeEsc, unescShort]
    exact hc
  by_cases h8 : c.toNat < 32
  · have hd : unhex (hexDig (c.toNat / 16)) = c.toNat / 16 := unhex_hexDig _ (by omega)
    have hm : unhex (hexDig (c.toNat % 16)) = c.toNat % 16 :=
      unhex_hexDig _ (Nat.mod_lt _ (by norm_num))
    have hc : Char.ofNat (16 * (c.toNat / 16) + c.toNat % 16) = c := by
      rw [Nat.div_add_mod]
      exact Char.ofNat_toNat c
    simp [escChar, h1, h2, h3, h4, h5, h6, h7, h8, decodeEsc, hd, hm, hc]
  · simp [escChar, h1, h2, h3, h4, h5, h6, h7, h8, decodeEsc]

/-- `escChar` output is nonempty and never starts with a double quote. -/
theorem escChar_head (c : Char) : ∃ x t, escChar c = x :: t ∧ x ≠ '"' := by
  by_cases h1 : c = '"'
  · subst h1
    exact ⟨'\\', ['"'], rfl, by decide⟩
  by_cases h2 : c = '\\'
  · subst h2
    exact ⟨'\\', ['\\'], rfl, by decide⟩
  by_cases h3 : c = '\n'
  · subst h3
    exact ⟨'\\', ['n'], rfl, by decide⟩
  by_cases h4 : c = '\r'
  · subst h4
    exact ⟨'\\', ['r'], rfl, by decide⟩
  by_cases h5 : c = '\t'
  · subst h5
    exact ⟨'\\', ['t'], rfl, by decide⟩
  by_cases h6 : c.toNat = 8
  · exact ⟨'\\', ['b'], by simp [escChar, h1, h2, h3, h4, h5, h6], by decide⟩
  by_cases h7 : c.toNat = 12
  · exact ⟨'\\', ['f'], by simp [escChar, h1, h2, h3, h4, h5, h6, h7], by decide⟩
  by_cases h8 : c.toNat < 32
  · exact ⟨'\\', ['u', '0', '0', hexDig (c.toNat / 16), hexDig (c.toNat % 16)],
      by simp [escChar, h1, h2, h3, h4, h5, h6, h7, h8], by decide⟩
  · exact ⟨c, [], by simp [escChar, h1, h2, h3, h4, h5, h6, h7, h8], h1⟩

/-- A quote-terminated escaped body determines the body and the
continuation. -/
theorem escape_quote_pa : ∀ (s1 s2 r1 r2 : JStr),
    escape s1 ++ '"' :: r1 = escape s2 ++ '"' :: r2 → s1 = s2 ∧ r1 = r2 := by
  intro s1
  induction s1 with
  | nil =>
    intro s2 r1 r2 h
    cases s2 with
    | nil => simpa using h
    | cons c s2' =>
      obtain ⟨x, t, hx, hne⟩ := escChar_head c
      simp only [escape, List.nil_append, List.append_assoc] at h
      rw [hx] at h
      simp only [List.cons_append, List.cons.injEq] at h
      exact absurd h.1.symm hne
  | cons c s1' ih =>
    intro s2 r1 r2 h
    cases s2 with
    | nil =>
      obtain ⟨x, t, hx, hne⟩ := escChar_head c
      simp only [escape, List.nil_append, List.append_assoc] at h
      rw [hx] at h
      simp only [List.cons_append, List.cons.injEq] at h
      exact absurd h.1 hne
    | cons c2 s2' =>
      simp only [escape, List.append_assoc] at h
      have hd := congrArg decodeEsc h
      rw [decodeEsc_escChar, decodeEsc_escChar] at hd
      simp only [Option.some.injEq, Prod.mk.injEq] at hd
      obtain ⟨hc, ht⟩ := hd
      obtain ⟨hs, hr⟩ := ih s2' r1 r2 ht
      exact ⟨by rw [hc, hs], hr⟩

/-- A JSON string literal determines its body and continuation. -/
theorem quote_pa (s1 s2 r1 r2 : JStr) (h : quote s1 ++ r1 = quote s2 ++ r2) :
    s1 = s2 ∧ r1 = r2 := by
  simp only [quote, List.cons_append, List.append_assoc, List.singleton_append,
    List.cons.injEq, true_and] at h
  exact escape_quote_pa s1 s2 r1 r2 h

/-- A serialized object member determines the pair and continuation. -/
theorem pairStr_pa (a b : JStr × JStr) (r1 r2 : JStr)
    (h : pairStr a ++ r1 = pairStr b ++ r2) : a = b ∧ r1 = r2 := by
  obtain ⟨a1, a2⟩ := a
  obtain ⟨b1, b2⟩ := b
  simp only [pairStr, List.append_assoc, List.cons_append] at h
  obtain ⟨h1, h2⟩ := quote_pa _ _ _ _ h
  simp only [List.cons.injEq] at h2
  obtain ⟨h3, h4⟩ := quote_pa _ _ _ _ h2.2
  simp only [Prod.mk.injEq]
  exact ⟨⟨h1, h3⟩, h4⟩

theorem joinSep_one_append (sep : Char) (e t : JStr) : joinSep sep [e] ++ t = e ++ t := by
  simp [joinSep]

theorem joinSep_cons2_append (sep : Char) (e f : JStr) (es : List JStr) (t : JStr) :
    joinSep sep (e :: f :: es) ++ t = e ++ sep :: (joinSep sep (f :: es) ++ t) := by
  simp [joinSep, List.append_assoc]

/-- A comma-joined, terminator-ended item list determines the items and
the continuation, given an item serializer that is itself unambiguous and
whose output never starts with the comma or the terminator. -/
theorem joinComma_term_pa {α : Type} (estr : α → JStr) (term : Char)
    (hterm : term ≠ ',')
    (hhead : ∀ a : α, ∃ x t, estr a = x :: t ∧ x ≠ ',' ∧ x ≠ term)
    (hpa : ∀ (a b : α) (r1 r2 : JStr), estr a ++ r1 = estr b ++ r2 → a = b ∧ r1 = r2) :
    ∀ (l1 l2 : List α) (r1 r2 : JStr),
      joinSep ',' (l1.map estr) ++ term :: r1 = joinSep ',' (l2.map estr) ++ term :: r2 →
      l1 = l2 ∧ r1 = r2 := by
  intro l1
  induction l1 with
  | nil =>
    intro l2 r1 r2 h
    cases l2 with
    | nil =>
      simp only [List.map_nil, joinSep, List.nil_append, List.cons.injEq] at h
      exact ⟨rfl, h.2⟩
    | cons b l2' =>
      obtain ⟨x, t, hx, hxc, hxt⟩ := hhead b
      exfalso
      cases l2' with
      | nil =>
        simp only [List.map_cons, List.map_nil, joinSep, List.nil_append] at h
        rw [hx] at h
        simp only [List.cons_append, List.cons.injEq] at h
        exact hxt h.1.symm
      | cons f l2'' =>
        simp only [List.map_cons, List.map_nil, joinSep, List.nil_append] at h
        rw [hx] at h
        simp only [List.append_assoc, List.cons_append, List.cons.injEq] at h
        exact hxt h.1.symm
  | cons a l1' ih =>
    intro l2 r1 r2 h
    cases l2 with
    | nil =>
      obtain ⟨x, t, hx, hxc, hxt⟩ := hhead a
      exfalso
      cases l1' with
      | nil =>
        simp only [List.map_cons, List.map_nil, joinSep, List.nil_append] at h
        rw [hx] at h
        simp only [List.cons_append, List.cons.injEq] at h
        exact hxt h.1
      | cons g l1'' =>
        simp only [List.map_cons, List.map_nil, joinSep, List.nil_append] at h
        rw [hx] at h
        simp only [List.append_assoc, List.cons_append, List.cons.injEq] at h
        exact hxt h.1
    | cons b l2' =>
      cases l1' with
      | nil =>
        cases l2' with
        | nil =>
          simp only [List.map_cons, List.map_nil] at h
          rw [joinSep_one_append, joinSep_one_append] at h
          obtain ⟨hab, hr⟩ := hpa _ _ _ _ h
          simp only [List.cons.injEq] at hr
          exact ⟨by rw [hab], hr.2⟩
        | cons f l2'' =>
          exfalso
          simp only [List.map_cons, List.map_nil] at h
          rw [joinSep_one_append, joinSep_cons2_append] at h
          obtain ⟨hab, hr⟩ := hpa _ _ _ _ h
          simp only [List.cons.injEq] at hr
          exact hterm hr.1
      | cons g l1'' =>
        cases l2' with
        | nil =>
          exfalso
          simp only [List.map_cons, List.map_nil] at h
          rw [joinSep_cons2_append, joinSep_one_append] at h
          obtain ⟨hab, hr⟩ := hpa _ _ _ _ h
          simp only [List.cons.injEq] at hr
          exact hterm hr.1.symm
        | cons f l2'' =>
          simp only [List.map_cons] at h
          rw [joinSep_cons2_append, joinSep_cons2_append] at h
          obtain ⟨hab, hr⟩ := hpa _ _ _ _ h
          simp only [List.cons.injEq] at hr
          obtain ⟨hl, hr2⟩ := ih (f :: l2'') r1 r2 (by
            simpa only [List.map_cons] using hr.2)
          exact ⟨by rw [hab, hl], hr2⟩

/-- A serialized object member starts with a double quote. -/
theorem pairStr_head_ne (kv : JStr × JStr) :
    ∃ x t, pairStr kv = x :: t ∧ x ≠ ',' ∧ x ≠ '}' := by
  obtain ⟨k, v⟩ := kv
  refine ⟨'"', escape k ++ '"' :: ':' :: quote v, ?_, by decide, by decide⟩
  simp [pairStr, quote]

/-- A serialized attributes element starts with a quote or a brace. -/
theorem stringifyVal_head_ne (v : AttrValue) :
    ∃ x t, stringifyVal v = x :: t ∧ x ≠ ',' ∧ x ≠ ']' := by
  cases v with
  | str s =>
    refine ⟨'"', escape s ++ ['"'], ?_, by decide, by decide⟩
    simp [stringifyVal, quote]
  | obj kvs =>
    exact ⟨'{', joinSep ',' (kvs.map pairStr) ++ ['}'], rfl, by decide, by decide⟩

/-- A serialized attributes element determines the element and the
continuation. -/
theorem stringifyVal_pa (v1 v2 : AttrValue) (r1 r2 : JStr)
    (h : stringifyVal v1 ++ r1 = stringifyVal v2 ++ r2) : v1 = v2 ∧ r1 = r2 := by
  cases v1 with
  | str s1 =>
    cases v2 with
    | str s2 =>
      obtain ⟨hs, hr⟩ := quote_pa s1 s2 r1 r2 h
      exact ⟨by rw [hs], hr⟩
    | obj kvs2 =>
      exfalso
      simp only [stringifyVal, quote, List.cons_append, List.cons.injEq] at h
      exact absurd h.1 (by decide)
  | obj kvs1 =>
    cases v2 with
    | str s2 =>
      exfalso
      simp only [stringifyVal, quote, List.cons_append, List.cons.injEq] at h
      exact absurd h.1 (by decide)
    | obj kvs2 =>
      simp only [stringifyVal, List.cons_append, List.append_assoc,
        List.singleton_append, List.cons.injEq] at h
      obtain ⟨hk, hr⟩ := joinComma_term_pa pairStr '}' (by decide) pairStr_head_ne pairStr_pa
        kvs1 kvs2 r1 r2 h.2
      exact ⟨by rw [hk], hr⟩

/-- `JSON.stringify` of the attributes array is injective on the modelled
value space. -/
theorem stringifyAttrs_inj (l1 l2 : List AttrValue)
    (h : stringifyAttrs l1 = stringifyAttrs l2) : l1 = l2 := by
  simp only [stringifyAttrs, List.cons.injEq] at h
  exact (joinComma_term_pa stringifyVal ']' (by decide) stringifyVal_head_ne stringifyVal_pa
    l1 l2 [] [] h.2).1

theorem optMap_stringifyAttrs_inj (a b : Option (List AttrValue))
    (h : a.map stringifyAttrs = b.map stringifyAttrs) : a = b := by
  cases a with
  | none =>
    cases b with
    | none => rfl
    | some lb => simp at h
  | some la =>
    cases b with
    | none => simp at h
    | some lb =>
      simp only [Option.map_some', Option.some.injEq] at h
      rw [stringifyAttrs_inj la lb h]

/-- C2 counterexample: as stated, the separation claim is false.  First, a
tag name containing `|tf=` collides with a distinct tagName/themeFile
combination on the very pre-hash byte sequence (so the keys agree for every
digest, sha256 included); second, an empty-string tracked value collides
with the configuration that omits the field. -/
theorem createHash_separation_cex :
    (createHash id { tagName := some ("a|tf=b".data) }
        = createHash id { tagName := some ("a".data), themeFile := some ("b".data) } ∧
      ({ tagName := some ("a|tf=b".data) } : Config).tagName
        ≠ ({ tagName := some ("a".data), themeFile := some ("b".data) } : Config).tagName) ∧
    (createHash id { appTitle := some [] } = createHash id ({} : Config) ∧
      ({ appTitle := some [] } : Config).appTitle ≠ ({} : Config).appTitle) := by
  refine ⟨⟨rfl, ?_⟩, rfl, ?_⟩
  · decide
  · decide

/-- C2 amended: provided no fragment of either configuration's key
material contains the `|` separator, two configurations that differ in a
tracked field — the scalar fields compared after JavaScript-truthiness
normalization (empty ≡ absent, per the counterexample) — produce different
pre-hash byte sequences, and hence different cache keys under any
collision-free digest. -/
theorem createHash_separation_amended (c1 c2 : Config)
    (h1 : PipeFree c1) (h2 : PipeFree c2)
    (hne : ¬(truthy c1.tagName = truthy c2.tagName ∧
             truthy c1.themeFile = truthy c2.themeFile ∧
             truthy c1.indexFile = truthy c2.indexFile ∧
             truthy c1.appTitle = truthy c2.appTitle ∧
             c1.attributes = c2.attributes)) :
    keyMaterial c1 ≠ keyMaterial c2 ∧
    ∀ digest : JStr → JStr, Function.Injective digest →
      createHash digest c1 ≠ createHash digest c2 := by
  have hkm : keyMaterial c1 ≠ keyMaterial c2 := by
    intro he
    apply hne
    have hparts : createHashParts c1 = createHashParts c2 :=
      joinPipe_inj _ _
        (fun p hp => ⟨mem_createHashParts_ne_nil c1 p hp, h1 p hp⟩)
        (fun p hp => ⟨mem_createHashParts_ne_nil c2 p hp, h2 p hp⟩) he
    have hrec := congrArg recoverFields hparts
    rw [recover_correct c1, recover_correct c2] at hrec
    simp only [Prod.mk.injEq] at hrec
    exact ⟨hrec.1, hrec.2.1, hrec.2.2.1, hrec.2.2.2.1,
      optMap_stringifyAttrs_inj _ _ hrec.2.2.2.2⟩
  exact ⟨hkm, fun digest hinj he => hkm (hinj he)⟩

/-- Witness for C2 amended: two pipe-free configurations differing in
`tagName` have different key material. -/
theorem createHash_separation_amended_witness :
    keyMaterial { tagName := some ['a'] } ≠ keyMaterial { tagName := some ['b'] } :=
  (createHash_separation_amended { tagName := some ['a'] } { tagName := some ['b'] }
    (by decide) (by decide) (by decide)).1

end ACB
